import Mathlib

/-!
Shallow embedding of the Game of Life engine in `src/src/lib.rs`
(`Cell`, `Universe` and its methods), together with theorems checking the
design specification's claims against it.  Machine integers (`u32`, `u8`,
`usize`) are modelled as `Nat`; all values arising under the stated
preconditions are far below the respective overflow bounds.
-/

/-- Cell state from the source: `Alive = 1`, `Dead = 0`. -/
inductive Cell where
  | Alive
  | Dead
  deriving DecidableEq, Repr

/-- Numeric discriminant of a cell, as in the Rust cast `cell as u8`. -/
def Cell.toNat : Cell → Nat
  | Cell.Alive => 1
  | Cell.Dead => 0

/-- The `Universe` struct: dimensions and a flat row-major cell buffer. -/
structure Universe where
  width : Nat
  height : Nat
  cells : List Cell
  deriving DecidableEq, Repr

/-- Flat index of a cell: `(row * self.width + column) as usize`. -/
def Universe.get_index (u : Universe) (row column : Nat) : Nat :=
  row * u.width + column

/-- Toroidal Moore-neighborhood count, translated from
`Universe::live_neighbor_count`: iterate the row deltas
`[height - 1, 0, 1]` and column deltas `[width - 1, 0, 1]`, skip the pair
whose both components are `0`, and sum the discriminants of the cells at
the wrapped coordinates.  Out-of-range buffer reads (impossible under the
documented preconditions) default to `Dead`. -/
def Universe.live_neighbor_count (u : Universe) (row column : Nat) : Nat :=
  let row_deltas := [u.height - 1, 0, 1]
  let col_deltas := [u.width - 1, 0, 1]
  row_deltas.foldl (fun count delta_r =>
    col_deltas.foldl (fun count delta_c =>
      if delta_r = 0 ∧ delta_c = 0 then count
      else
        count +
          (u.cells.getD
            (u.get_index ((row + delta_r) % u.height)
              ((column + delta_c) % u.width)) Cell.Dead).toNat) count) 0

/-- Total cell count, `Universe::len` (the buffer's length). -/
def Universe.len (u : Universe) : Nat :=
  u.cells.length

/-- Bulk mutation `Universe::set_cells`: set each listed `(row, col)` to
`Alive` (a `List.set` at an out-of-range index is a no-op, matching the
fact that the Rust code would panic there — the contract requires
in-range coordinates). -/
def Universe.set_cells (u : Universe) (pairs : List (Nat × Nat)) : Universe :=
  { u with cells :=
      pairs.foldl (fun cs p => cs.set (u.get_index p.1 p.2) Cell.Alive) u.cells }

/-- The zero-argument constructor `Universe::new`: a 64×64 grid whose cell
at flat index `i` is `Alive` iff `i % 2 == 0 || i % 7 == 0`. -/
def Universe.new : Universe :=
  { width := 64
    height := 64
    cells := (List.range (64 * 64)).map fun i =>
      if i % 2 = 0 ∨ i % 7 = 0 then Cell.Alive else Cell.Dead }

/-- The match arms of the `tick` loop body, in source order. -/
def next_cell (cell : Cell) (x : Nat) : Cell :=
  if cell = Cell.Alive ∧ x < 2 then Cell.Dead
  else if cell = Cell.Alive ∧ x > 3 then Cell.Dead
  else if cell = Cell.Dead ∧ x = 3 then Cell.Alive
  else if cell = Cell.Alive ∧ (x = 2 ∨ x = 3) then Cell.Alive
  else cell

/-- One generation step, translated from `Universe::tick`: a copy `next`
of the buffer is updated cell by cell, while the pre-tick buffer
`u.cells` (the snapshot) is the one read for current states and neighbor
counts. -/
def Universe.tick (u : Universe) : Universe :=
  { u with cells :=
      (List.range u.height).foldl (fun next row =>
        (List.range u.width).foldl (fun next col =>
          next.set (u.get_index row col)
            (next_cell (u.cells.getD (u.get_index row col) Cell.Dead)
              (u.live_neighbor_count row col))) next) u.cells }

/-- Dimension mutation `Universe::set_width`: store the new width and
rebuild the whole buffer, every cell `Dead`. -/
def Universe.set_width (u : Universe) (width : Nat) : Universe :=
  { u with width := width
           cells := (List.range (width * u.height)).map fun _ => Cell.Dead }

/-- Dimension mutation `Universe::set_height`: store the new height and
rebuild the whole buffer, every cell `Dead`. -/
def Universe.set_height (u : Universe) (height : Nat) : Universe :=
  { u with height := height
           cells := (List.range (u.width * height)).map fun _ => Cell.Dead }

/-- Glyph choice of the `Display` impl: `'◻'` for `Dead`, `'◼'` for
`Alive`. -/
def symbol (c : Cell) : Char :=
  if c = Cell.Dead then '◻' else '◼'

/-- Mirrors `slice::chunks(w)` as used by the `Display` impl.  Rust's
`chunks` panics when `w = 0`; the model is only meaningful for `w ≥ 1`,
where `max w 1 = w`. -/
def chunksList (w : Nat) : List Cell → List (List Cell)
  | [] => []
  | x :: xs => (x :: xs).take w :: chunksList w ((x :: xs).drop (max w 1))
termination_by l => l.length
decreasing_by simp [List.length_drop]

/-- Textual rendering, translated from the `Display` impl (which
`Universe::render` calls through `to_string`): for each `width`-sized
chunk of the buffer, one glyph per cell followed by a newline. -/
def Universe.render (u : Universe) : List Char :=
  ((chunksList u.width u.cells).map fun line => line.map symbol ++ ['\n']).flatten

/-- Modelled from the spec: the three-argument constructor
`new(width, height, cells)` described in the specification is not present
in `src/src/lib.rs` (only the zero-argument `new` is).  Per the spec it
asserts `cells.length == width * height` (a fatal assertion, modelled as
`none`) and otherwise stores exactly the given buffer. -/
def Universe.new_checked (width height : Nat) (cells : List Cell) : Option Universe :=
  if cells.length = width * height then
    some { width := width, height := height, cells := cells }
  else
    none

/-- The B3/S23 transition rule exactly as the specification's table
states it. -/
def b3s23 (c : Cell) (n : Nat) : Cell :=
  match c with
  | Cell.Alive => if n < 2 then Cell.Dead else if n > 3 then Cell.Dead else Cell.Alive
  | Cell.Dead => if n = 3 then Cell.Alive else Cell.Dead

/-- The neighbor-count formula as the specification states it: the sum of
the discriminants over all delta pairs drawn from
`[height - 1, 0, 1] × [width - 1, 0, 1]` except those equal to `(0, 0)`,
each at the wrapped coordinate. -/
def neighbor_count_spec (u : Universe) (row col : Nat) : Nat :=
  ((((([u.height - 1, 0, 1]).product [u.width - 1, 0, 1]).filter
        fun p => !(p.1 == 0 && p.2 == 0)).map
      fun p =>
        (u.cells.getD
          (u.get_index ((row + p.1) % u.height) ((col + p.2) % u.width))
          Cell.Dead).toNat)).sum

/-- The claim's strict reading of the rendering as a newline-separated
sequence of rows: a newline between consecutive rows only. -/
def render_sep (u : Universe) : List Char :=
  List.intercalate ['\n'] ((chunksList u.width u.cells).map fun line => line.map symbol)

/-- A 5×5 grid holding a horizontal blinker in row 2, columns 1–3. -/
def blinker : Universe :=
  { width := 5
    height := 5
    cells := (List.range 25).map fun i =>
      if i = 11 ∨ i = 12 ∨ i = 13 then Cell.Alive else Cell.Dead }

/-- A 1×1 grid with its single cell dead, used as a concrete instance. -/
def u1 : Universe :=
  { width := 1, height := 1, cells := [Cell.Dead] }

/-- C3: the zero-argument constructor builds a 64×64 grid of 4096 cells
in which cell `i` is `Alive` exactly when `i % 2 = 0` or `i % 7 = 0`. -/
theorem new_seed_pattern :
    Universe.new.width = 64 ∧ Universe.new.height = 64 ∧ Universe.new.len = 4096 ∧
      ∀ i, i < 4096 →
        (Universe.new.cells.getD i Cell.Dead = Cell.Alive ↔ (i % 2 = 0 ∨ i % 7 = 0)) := by
  refine ⟨rfl, rfl, by simp [Universe.new, Universe.len], ?_⟩
  intro i hi
  have hlen : i < ((List.range (64 * 64)).map fun i =>
      if i % 2 = 0 ∨ i % 7 = 0 then Cell.Alive else Cell.Dead).length := by
    simpa using hi
  rw [Universe.new, List.getD_eq_getElem?_getD, List.getElem?_eq_getElem hlen]
  simp only [List.getElem_map, List.getElem_range, Option.getD_some]
  by_cases h : i % 2 = 0 ∨ i % 7 = 0 <;> simp [h]

/-- C3 witness: cell 0 of the seeded grid is alive. -/
theorem new_seed_pattern_witness :
    Universe.new.cells.getD 0 Cell.Dead = Cell.Alive :=
  (new_seed_pattern.2.2.2 0 (by decide)).mpr (Or.inl (by decide))

/-- Folds whose steps only `List.set` preserve the buffer length. -/
theorem foldl_set_pres_length {α : Type} (F : List Cell → α → List Cell)
    (hF : ∀ b a, (F b a).length = b.length) (l : List α) (b : List Cell) :
    (l.foldl F b).length = b.length := by
  induction l generalizing b with
  | nil => rfl
  | cons a l ih => rw [List.foldl_cons, ih, hF]

theorem getD_set_self (b : List Cell) (i : Nat) (v d : Cell) (h : i < b.length) :
    (b.set i v).getD i d = v := by
  rw [List.getD_eq_getElem?_getD, List.getElem?_set_self h, Option.getD_some]

theorem getD_set_ne (b : List Cell) (i j : Nat) (v d : Cell) (h : i ≠ j) :
    (b.set i v).getD j d = b.getD j d := by
  rw [List.getD_eq_getElem?_getD, List.getElem?_set_ne h, ← List.getD_eq_getElem?_getD]

/-- Distinct in-range `(row, col)` pairs have distinct flat indices. -/
theorem get_index_inj {w r1 c1 r2 c2 : Nat} (h1 : c1 < w) (h2 : c2 < w)
    (he : r1 * w + c1 = r2 * w + c2) : r1 = r2 ∧ c1 = c2 := by
  have hw : 0 < w := lt_of_le_of_lt (Nat.zero_le c1) h1
  have e1 : (r1 * w + c1) % w = c1 := by
    rw [Nat.add_comm, Nat.add_mul_mod_self_right]; exact Nat.mod_eq_of_lt h1
  have e2 : (r2 * w + c2) % w = c2 := by
    rw [Nat.add_comm, Nat.add_mul_mod_self_right]; exact Nat.mod_eq_of_lt h2
  have hc : c1 = c2 := by rw [← e1, ← e2, he]
  refine ⟨?_, hc⟩
  have hm : r1 * w = r2 * w := by
    have := he
    rw [hc] at this
    exact Nat.add_right_cancel this
  exact Nat.eq_of_mul_eq_mul_right hw hm

/-- An in-range `(row, col)` pair's flat index is inside the buffer. -/
theorem get_index_lt (u : Universe) {row col : Nat} (hr : row < u.height)
    (hc : col < u.width) : u.get_index row col < u.width * u.height := by
  have h1 : row * u.width + col < (row + 1) * u.width := by
    rw [Nat.succ_mul]
    exact Nat.add_lt_add_left hc _
  have h2 : (row + 1) * u.width ≤ u.height * u.width :=
    Nat.mul_le_mul_right _ hr
  calc u.get_index row col < (row + 1) * u.width := h1
    _ ≤ u.height * u.width := h2
    _ = u.width * u.height := Nat.mul_comm _ _

/-- The inner column loop, at the row it writes: position
`get_index r col` receives the value computed for column `col`. -/
theorem inner_fold_getD_hit (u : Universe) (g : Nat → Nat → Cell) (r : Nat) :
    ∀ (m : Nat) (b : List Cell) (col : Nat), col < m →
      u.get_index r col < b.length →
      (((List.range m).foldl
          (fun next c => next.set (u.get_index r c) (g r c)) b).getD
        (u.get_index r col) Cell.Dead) = g r col := by
  intro m
  induction m with
  | zero => intro b col hcol _; omega
  | succ m ih =>
    intro b col hcol hlt
    rw [List.range_succ, List.foldl_append, List.foldl_cons, List.foldl_nil]
    by_cases hc : col = m
    · subst hc
      have hlenf : ((List.range col).foldl
          (fun next c => next.set (u.get_index r c) (g r c)) b).length = b.length :=
        foldl_set_pres_length _ (fun b a => List.length_set ..) _ _
      exact getD_set_self _ _ _ _ (by rw [hlenf]; exact hlt)
    · rw [getD_set_ne]
      · exact ih b col (by omega) hlt
      · intro h
        simp only [Universe.get_index] at h
        exact hc (Nat.add_left_cancel h).symm

/-- The inner column loop leaves every position it does not write
unchanged. -/
theorem inner_fold_getD_miss (u : Universe) (g : Nat → Nat → Cell) (r : Nat) :
    ∀ (m : Nat) (b : List Cell) (j : Nat), (∀ c, c < m → u.get_index r c ≠ j) →
      (((List.range m).foldl
          (fun next c => next.set (u.get_index r c) (g r c)) b).getD j Cell.Dead)
        = b.getD j Cell.Dead := by
  intro m
  induction m with
  | zero => intro b j _; rfl
  | succ m ih =>
    intro b j hj
    rw [List.range_succ, List.foldl_append, List.foldl_cons, List.foldl_nil]
    rw [getD_set_ne _ _ _ _ _ (hj m (Nat.lt_succ_self m))]
    exact ih b j (fun c hc => hj c (Nat.lt_succ_of_lt hc))

/-- The double loop of `tick`: after processing rows `0..n`, the cell at
an already-processed `(row, col)` holds the value `g row col` computed
from the untouched snapshot. -/
theorem outer_fold_getD (u : Universe) (g : Nat → Nat → Cell) :
    ∀ (n : Nat) (b : List Cell), b.length = u.width * u.height → n ≤ u.height →
      ∀ (row col : Nat), row < n → col < u.width →
      (((List.range n).foldl (fun next r =>
          (List.range u.width).foldl
            (fun next c => next.set (u.get_index r c) (g r c)) next) b).getD
        (u.get_index row col) Cell.Dead) = g row col := by
  intro n
  induction n with
  | zero => intro b _ _ row col hrow _; omega
  | succ n ih =>
    intro b hb hn row col hrow hcol
    rw [List.range_succ, List.foldl_append, List.foldl_cons, List.foldl_nil]
    have hlenB : ((List.range n).foldl (fun next r =>
        (List.range u.width).foldl
          (fun next c => next.set (u.get_index r c) (g r c)) next) b).length
        = u.width * u.height := by
      rw [foldl_set_pres_length _ (fun b' r =>
        foldl_set_pres_length _ (fun b'' c => List.length_set ..) _ b') _ _, hb]
    by_cases hr : row = n
    · subst hr
      exact inner_fold_getD_hit u g row u.width _ col hcol
        (by rw [hlenB]; exact get_index_lt u (by omega) hcol)
    · rw [inner_fold_getD_miss u g n u.width _ (u.get_index row col)
        (fun c hc he =>
          hr ((get_index_inj hc hcol (by simpa [Universe.get_index] using he)).1).symm)]
      exact ih b hb (by omega) row col (by omega) hcol

/-- The source's `match` arms compute exactly the specification's B3/S23
table. -/
theorem next_cell_eq_b3s23 (c : Cell) (n : Nat) : next_cell c n = b3s23 c n := by
  cases c <;> simp only [next_cell, b3s23] <;> split_ifs <;> first | rfl | omega | simp_all

/-- C1: after one `tick`, every in-range cell equals the B3/S23 rule
applied to its pre-tick state and its pre-tick neighbor count — the
transition reads only the pre-tick snapshot. -/
theorem tick_applies_b3s23_snapshot (u : Universe)
    (hw : 1 ≤ u.width) (hh : 1 ≤ u.height)
    (hlen : u.cells.length = u.width * u.height)
    (row col : Nat) (hr : row < u.height) (hc : col < u.width) :
    (u.tick).cells.getD (u.get_index row col) Cell.Dead =
      b3s23 (u.cells.getD (u.get_index row col) Cell.Dead)
        (u.live_neighbor_count row col) := by
  have hmain := outer_fold_getD u
    (fun r c => next_cell (u.cells.getD (u.get_index r c) Cell.Dead)
      (u.live_neighbor_count r c))
    u.height u.cells hlen (le_refl _) row col hr hc
  exact hmain.trans (next_cell_eq_b3s23 _ _)

/-- C1 witness: the theorem instantiated on the 1×1 dead grid. -/
theorem tick_applies_b3s23_snapshot_witness :
    (u1.tick).cells.getD (u1.get_index 0 0) Cell.Dead =
      b3s23 (u1.cells.getD (u1.get_index 0 0) Cell.Dead)
        (u1.live_neighbor_count 0 0) :=
  tick_applies_b3s23_snapshot u1 (by decide) (by decide) (by decide) 0 0
    (by decide) (by decide)

/-- C10: under the documented preconditions, every flat index computed by
`live_neighbor_count` (for each delta pair) and by `tick`'s direct read
is strictly below the buffer length, so every access is in bounds. -/
theorem accesses_in_bounds (u : Universe)
    (hw : 1 ≤ u.width) (hh : 1 ≤ u.height)
    (hlen : u.cells.length = u.width * u.height)
    (row col : Nat) (hr : row < u.height) (hc : col < u.width) :
    (∀ dr ∈ [u.height - 1, 0, 1], ∀ dc ∈ [u.width - 1, 0, 1],
        u.get_index ((row + dr) % u.height) ((col + dc) % u.width) < u.cells.length)
      ∧ u.get_index row col < u.cells.length := by
  constructor
  · intro dr _ dc _
    rw [hlen]
    exact get_index_lt u (Nat.mod_lt _ (by omega)) (Nat.mod_lt _ (by omega))
  · rw [hlen]
    exact get_index_lt u hr hc

/-- C10 witness: the theorem instantiated on the 1×1 dead grid. -/
theorem accesses_in_bounds_witness :
    (∀ dr ∈ [u1.height - 1, 0, 1], ∀ dc ∈ [u1.width - 1, 0, 1],
        u1.get_index ((0 + dr) % u1.height) ((0 + dc) % u1.width) < u1.cells.length)
      ∧ u1.get_index 0 0 < u1.cells.length :=
  accesses_in_bounds u1 (by decide) (by decide) (by decide) 0 0 (by decide) (by decide)

/-- Buffers rebuilt as `(0..n).map(|_| Dead)` read `Dead` everywhere. -/
theorem getD_map_const_dead (n i : Nat) :
    (((List.range n).map fun _ => Cell.Dead).getD i Cell.Dead) = Cell.Dead := by
  rw [List.getD_eq_getElem?_getD, List.getElem?_map]
  cases (List.range n)[i]? <;> rfl

/-- C4: `set_width` installs the new width, keeps the height, and rebuilds
the whole buffer with every cell `Dead`; `set_height` does the symmetric
thing. -/
theorem set_width_height_reset_dead (u : Universe) (w h : Nat) :
    ((u.set_width w).width = w ∧ (u.set_width w).height = u.height ∧
      (u.set_width w).len = w * u.height ∧
      (∀ i, i < w * u.height → (u.set_width w).cells.getD i Cell.Dead = Cell.Dead))
    ∧ ((u.set_height h).height = h ∧ (u.set_height h).width = u.width ∧
      (u.set_height h).len = u.width * h ∧
      (∀ i, i < u.width * h → (u.set_height h).cells.getD i Cell.Dead = Cell.Dead)) := by
  refine ⟨⟨rfl, rfl, by simp [Universe.set_width, Universe.len], fun i _ => ?_⟩,
         ⟨rfl, rfl, by simp [Universe.set_height, Universe.len], fun i _ => ?_⟩⟩
  · exact getD_map_const_dead _ i
  · exact getD_map_const_dead _ i

/-- C4 witness: the theorem instantiated on the 1×1 grid resized to
width 2, read at cell 0. -/
theorem set_width_height_reset_dead_witness :
    (u1.set_width 2).cells.getD 0 Cell.Dead = Cell.Dead :=
  (set_width_height_reset_dead u1 2 3).1.2.2.2 0 (by decide)

/-- A position already holding `Alive` still holds it after the
`set_cells` loop, since every write writes `Alive`. -/
theorem set_cells_alive_stays (u : Universe) :
    ∀ (ps : List (Nat × Nat)) (b : List Cell) (j : Nat),
      b.getD j Cell.Dead = Cell.Alive →
      ((ps.foldl (fun cs p => cs.set (u.get_index p.1 p.2) Cell.Alive) b).getD
        j Cell.Dead) = Cell.Alive := by
  intro ps
  induction ps with
  | nil => intro b j hj; exact hj
  | cons q ps ih =>
    intro b j hj
    rw [List.foldl_cons]
    apply ih
    by_cases hij : u.get_index q.1 q.2 = j
    · subst hij
      by_cases hlt : u.get_index q.1 q.2 < b.length
      · exact getD_set_self _ _ _ _ hlt
      · rw [List.set_eq_of_length_le (by omega)]
        exact hj
    · rw [getD_set_ne _ _ _ _ _ hij]
      exact hj

/-- A listed in-range position reads `Alive` after the `set_cells`
loop. -/
theorem set_cells_hit (u : Universe) :
    ∀ (ps : List (Nat × Nat)) (b : List Cell) (p : Nat × Nat), p ∈ ps →
      u.get_index p.1 p.2 < b.length →
      ((ps.foldl (fun cs p => cs.set (u.get_index p.1 p.2) Cell.Alive) b).getD
        (u.get_index p.1 p.2) Cell.Dead) = Cell.Alive := by
  intro ps
  induction ps with
  | nil => intro b p hp; cases hp
  | cons q ps ih =>
    intro b p hp hlt
    rw [List.foldl_cons]
    rcases List.mem_cons.mp hp with h | h
    · subst h
      exact set_cells_alive_stays u ps _ _ (getD_set_self _ _ _ _ hlt)
    · exact ih _ p h (by simpa using hlt)

/-- A position hit by none of the listed pairs is unchanged by the
`set_cells` loop. -/
theorem set_cells_miss (u : Universe) :
    ∀ (ps : List (Nat × Nat)) (b : List Cell) (j : Nat),
      (∀ p ∈ ps, u.get_index p.1 p.2 ≠ j) →
      ((ps.foldl (fun cs p => cs.set (u.get_index p.1 p.2) Cell.Alive) b).getD
        j Cell.Dead) = b.getD j Cell.Dead := by
  intro ps
  induction ps with
  | nil => intro b j _; rfl
  | cons q ps ih =>
    intro b j hj
    rw [List.foldl_cons, ih _ j (fun p hp => hj p (List.mem_cons_of_mem q hp)),
      getD_set_ne _ _ _ _ _ (hj q (List.mem_cons_self q ps))]

/-- C5: `set_cells` with in-range pairs sets exactly the listed cells to
`Alive`, leaves every unlisted cell at its prior value, and changes
neither the dimensions nor the buffer length. -/
theorem set_cells_sets_listed_keeps_rest (u : Universe) (ps : List (Nat × Nat))
    (hlen : u.cells.length = u.width * u.height)
    (hps : ∀ p ∈ ps, p.1 < u.height ∧ p.2 < u.width) :
    (∀ p ∈ ps,
      (u.set_cells ps).cells.getD (u.get_index p.1 p.2) Cell.Dead = Cell.Alive)
    ∧ (∀ row col, row < u.height → col < u.width → (row, col) ∉ ps →
        (u.set_cells ps).cells.getD (u.get_index row col) Cell.Dead
          = u.cells.getD (u.get_index row col) Cell.Dead)
    ∧ (u.set_cells ps).width = u.width ∧ (u.set_cells ps).height = u.height
    ∧ (u.set_cells ps).len = u.len := by
  refine ⟨?_, ?_, rfl, rfl, ?_⟩
  · intro p hp
    exact set_cells_hit u ps u.cells p hp
      (by rw [hlen]; exact get_index_lt u (hps p hp).1 (hps p hp).2)
  · intro row col hrow hcol hnot
    apply set_cells_miss
    rintro ⟨pr, pc⟩ hp he
    have hpair := get_index_inj (hps _ hp).2 hcol
      (by simpa [Universe.get_index] using he)
    exact hnot (by rw [← hpair.1, ← hpair.2]; exact hp)
  · exact foldl_set_pres_length _ (fun b a => List.length_set ..) _ _

/-- C5 witness: the theorem instantiated on the 1×1 grid with the single
pair `(0, 0)`. -/
theorem set_cells_sets_listed_keeps_rest_witness :
    (u1.set_cells [(0, 0)]).cells.getD (u1.get_index 0 0) Cell.Dead = Cell.Alive :=
  (set_cells_sets_listed_keeps_rest u1 [(0, 0)] (by decide)
    (by intro p hp; simp at hp; subst hp; decide)).1 (0, 0) (by simp)

/-- C6: the invariant `len = width * height` holds for the seeded
constructor and is preserved by `tick`, `set_cells`, `set_width` and
`set_height`. -/
theorem len_invariant_preserved :
    Universe.new.len = Universe.new.width * Universe.new.height
    ∧ (∀ u : Universe, u.len = u.width * u.height →
        (u.tick).len = (u.tick).width * (u.tick).height)
    ∧ (∀ (u : Universe) (ps : List (Nat × Nat)), u.len = u.width * u.height →
        (u.set_cells ps).len = (u.set_cells ps).width * (u.set_cells ps).height)
    ∧ (∀ (u : Universe) (w : Nat),
        (u.set_width w).len = (u.set_width w).width * (u.set_width w).height)
    ∧ (∀ (u : Universe) (h : Nat),
        (u.set_height h).len = (u.set_height h).width * (u.set_height h).height) := by
  refine ⟨by simp [Universe.new, Universe.len], ?_, ?_, ?_, ?_⟩
  · intro u hu
    have hpres : (u.tick).cells.length = u.cells.length :=
      foldl_set_pres_length _ (fun b r =>
        foldl_set_pres_length _ (fun b' c => List.length_set ..) _ b) _ _
    exact hpres.trans hu
  · intro u ps hu
    have hpres : (u.set_cells ps).cells.length = u.cells.length :=
      foldl_set_pres_length _ (fun b a => List.length_set ..) _ _
    exact hpres.trans hu
  · intro u w
    simp [Universe.set_width, Universe.len]
  · intro u h
    simp [Universe.set_height, Universe.len]

/-- C6 witness: the `tick` branch instantiated on the 1×1 dead grid. -/
theorem len_invariant_preserved_witness :
    (u1.tick).len = (u1.tick).width * (u1.tick).height :=
  len_invariant_preserved.2.1 u1 (by decide)

/-- C7: the 5×5 blinker returns to its exact starting configuration
after two ticks, and one tick does not leave it fixed — the period is
exactly 2. -/
theorem blinker_period_two :
    blinker.tick.tick = blinker ∧ blinker.tick ≠ blinker :=
  ⟨by decide, by decide⟩

/-- C8 (spec-modelled): the three-argument constructor rejects exactly
the buffers whose length differs from `width * height`, and otherwise
stores the supplied buffer verbatim. -/
theorem new_checked_asserts_buffer_size (w h : Nat) (cs : List Cell) :
    (cs.length ≠ w * h → Universe.new_checked w h cs = none)
    ∧ (cs.length = w * h →
        Universe.new_checked w h cs
          = some { width := w, height := h, cells := cs }) := by
  constructor
  · intro hne
    rw [Universe.new_checked, if_neg hne]
  · intro he
    rw [Universe.new_checked, if_pos he]

/-- C8 witness: a mismatched buffer is rejected and a matched one is
stored verbatim. -/
theorem new_checked_asserts_buffer_size_witness :
    Universe.new_checked 1 2 [Cell.Dead] = none
    ∧ Universe.new_checked 1 1 [Cell.Dead]
        = some { width := 1, height := 1, cells := [Cell.Dead] } :=
  ⟨(new_checked_asserts_buffer_size 1 2 [Cell.Dead]).1 (by decide),
   (new_checked_asserts_buffer_size 1 1 [Cell.Dead]).2 (by decide)⟩

/-- Each cell discriminant is at most 1. -/
theorem Cell.toNat_le_one (c : Cell) : c.toNat ≤ 1 := by
  cases c <;> decide

/-- The specification's neighbor-sum never exceeds 8: at most eight delta
pairs survive the `(0, 0)` exclusion, each contributing at most 1. -/
theorem neighbor_count_spec_le_eight (u : Universe) (row col : Nat) :
    neighbor_count_spec u row col ≤ 8 := by
  rw [neighbor_count_spec]
  refine le_trans (List.sum_le_card_nsmul _ 1 ?_) ?_
  · intro x hx
    rcases List.mem_map.mp hx with ⟨p, -, rfl⟩
    exact Cell.toNat_le_one _
  · rw [smul_eq_mul, mul_one, List.length_map]
    have hlt : (((([u.height - 1, 0, 1]).product [u.width - 1, 0, 1]).filter
        fun p => !(p.1 == 0 && p.2 == 0)).length)
        < ((([u.height - 1, 0, 1]).product [u.width - 1, 0, 1]).length) := by
      apply List.length_filter_lt_length_iff_exists.mpr
      exact ⟨(0, 0), List.mem_product.mpr ⟨by simp, by simp⟩, by decide⟩
    have hlen9 : ((([u.height - 1, 0, 1]).product [u.width - 1, 0, 1]).length) = 9 := rfl
    omega

/-- C2: `live_neighbor_count` equals the specification's toroidal
delta-sum formula — the sum of the discriminants over the delta pairs of
`[height-1, 0, 1] × [width-1, 0, 1]` other than `(0, 0)`, at the wrapped
coordinates — and lies in `[0, 8]`. -/
theorem live_neighbor_count_eq_spec_le_eight (u : Universe)
    (hw : 1 ≤ u.width) (hh : 1 ≤ u.height)
    (hlen : u.cells.length = u.width * u.height)
    (row col : Nat) (hr : row < u.height) (hc : col < u.width) :
    u.live_neighbor_count row col = neighbor_count_spec u row col
    ∧ u.live_neighbor_count row col ≤ 8 := by
  have heq : u.live_neighbor_count row col = neighbor_count_spec u row col := by
    by_cases hh0 : u.height - 1 = 0 <;> by_cases hw0 : u.width - 1 = 0 <;>
      simp [Universe.live_neighbor_count, neighbor_count_spec, List.product, hh0, hw0] <;>
      omega
  exact ⟨heq, heq ▸ neighbor_count_spec_le_eight u row col⟩

/-- C2 witness: the theorem instantiated on the 1×1 dead grid. -/
theorem live_neighbor_count_eq_spec_le_eight_witness :
    u1.live_neighbor_count 0 0 = neighbor_count_spec u1 0 0
    ∧ u1.live_neighbor_count 0 0 ≤ 8 :=
  live_neighbor_count_eq_spec_le_eight u1 (by decide) (by decide) (by decide) 0 0
    (by decide) (by decide)

/-- Reading a dropped buffer is reading the original at an offset. -/
theorem getD_drop (l : List Cell) (n m : Nat) (d : Cell) :
    (l.drop n).getD m d = l.getD (n + m) d := by
  rw [List.getD_eq_getElem?_getD, List.getD_eq_getElem?_getD, List.getElem?_drop]

theorem getD_eq_getElem_of_lt (l : List Cell) (i : Nat) (d : Cell) (h : i < l.length) :
    l.getD i d = l[i] := by
  rw [List.getD_eq_getElem?_getD, List.getElem?_eq_getElem h, Option.getD_some]

/-- A length-`w` chunk rendered glyph by glyph is the pointwise glyph
row. -/
theorem take_map_symbol (l : List Cell) (w : Nat) (hw : w ≤ l.length) :
    (l.take w).map symbol = (List.range w).map fun c => symbol (l.getD c Cell.Dead) := by
  apply List.ext_getElem
  · simp [List.length_take, Nat.min_eq_left hw]
  · intro i h1 h2
    simp only [List.getElem_map, List.getElem_take, List.getElem_range]
    congr 1
    rw [getD_eq_getElem_of_lt]

/-- The chunked, newline-terminated rendering of a `w * h` buffer is the
row-major glyph matrix, each row followed by one newline. -/
theorem chunks_render_rows (w : Nat) (hw : 1 ≤ w) :
    ∀ (h : Nat) (l : List Cell), l.length = w * h →
      ((chunksList w l).map fun line => line.map symbol ++ ['\n']).flatten
        = ((List.range h).map fun r =>
            ((List.range w).map fun c => symbol (l.getD (r * w + c) Cell.Dead))
              ++ ['\n']).flatten := by
  intro h
  induction h with
  | zero =>
    intro l hl
    have hnil : l = [] := List.eq_nil_of_length_eq_zero (by simpa using hl)
    subst hnil
    simp [chunksList]
  | succ h ih =>
    intro l hl
    have hwle : w ≤ l.length := by
      rw [hl, Nat.mul_succ]
      omega
    obtain ⟨x, xs, rfl⟩ : ∃ x xs, l = x :: xs := by
      cases l with
      | nil => simp at hwle; omega
      | cons x xs => exact ⟨x, xs, rfl⟩
    rw [chunksList]
    have hmax : max w 1 = w := by omega
    rw [hmax, List.map_cons, List.flatten_cons, List.range_succ_eq_map,
      List.map_cons, List.flatten_cons, List.map_map]
    have hdrop : ((x :: xs).drop w).length = w * h := by
      rw [List.length_drop, hl, Nat.mul_succ]
      omega
    rw [ih ((x :: xs).drop w) hdrop]
    congr 1
    · congr 1
      rw [take_map_symbol _ w hwle]
      apply List.map_congr_left
      intro c _
      simp
    · congr 1
      apply List.map_congr_left
      intro r _
      simp only [Function.comp_apply]
      congr 1
      apply List.map_congr_left
      intro c _
      rw [getD_drop]
      congr 1
      simp only [Nat.succ_eq_add_one]
      ring_nf

/-- C9 (amended): the rendering is exactly `height` rows in row-major
order, each exactly `width` glyphs (`symbol` maps `Alive` and `Dead` to
distinct glyphs) followed by one newline, and contains nothing else —
the rows are newline-terminated, including the last one. -/
theorem render_rows_newline_terminated (u : Universe)
    (hw : 1 ≤ u.width) (hlen : u.cells.length = u.width * u.height) :
    u.render = ((List.range u.height).map fun r =>
        ((List.range u.width).map fun c =>
          symbol (u.cells.getD (u.get_index r c) Cell.Dead)) ++ ['\n']).flatten
    ∧ symbol Cell.Alive ≠ symbol Cell.Dead := by
  refine ⟨?_, by decide⟩
  rw [Universe.render, chunks_render_rows u.width hw u.height u.cells hlen]
  simp only [Universe.get_index]

/-- C9 witness: the amended theorem instantiated on the 1×1 dead grid. -/
theorem render_rows_newline_terminated_witness :
    u1.render = ((List.range u1.height).map fun r =>
        ((List.range u1.width).map fun c =>
          symbol (u1.cells.getD (u1.get_index r c) Cell.Dead)) ++ ['\n']).flatten
    ∧ symbol Cell.Alive ≠ symbol Cell.Dead :=
  render_rows_newline_terminated u1 (by decide) (by decide)

/-- C9 counterexample: on the 1×1 dead grid, a newline-separated sequence
of exactly one row of exactly one glyph with no other characters would be
the single glyph (`render_sep`, the claim's strict reading), but the
actual rendering carries a trailing newline, so the claim as stated
fails. -/
theorem render_not_newline_separated :
    u1.render = [symbol Cell.Dead, '\n']
    ∧ render_sep u1 = [symbol Cell.Dead]
    ∧ u1.render ≠ render_sep u1 := by
  refine ⟨?_, ?_, ?_⟩ <;>
    simp [Universe.render, render_sep, chunksList, u1, symbol, List.intercalate]
